import Mathlib

/-!
Verification model of the WebsiteCloner crawler
(repository file: AI Agent CLI/bin/cli.js, class WebsiteCloner).

The JavaScript class is embedded shallowly:

* strings are modelled as Lean String values, with the character-level
  work done on List Char (String.data);
* the Node path helpers used by the source (path.extname, path.basename,
  path.join, path.relative on a path below the join base) are modelled
  faithfully for POSIX separators, which is what the crawler produces;
* the WHATWG URL resolution used by the source (new URL(ref, base)) is
  modelled for the fragment of behaviour the crawler exercises: absolute
  http and https URLs, protocol-relative, root-relative and plain
  relative references, host comparison, and the href serialisation.
  A space in a host models a parse failure; query strings, fragments,
  userinfo and dot-segment normalisation are not modelled;
* cheerio documents are lists of elements carrying a tag name and an
  attribute association list; element identity is the index in the list;
* the single regular expression of the source,
  background-image:\s*url\([quote]?([^quote-paren-space]+)[quote]?\),
  is implemented as an explicit leftmost matcher with the same
  backtracking behaviour;
* network and clock effects are a World record (page fetcher, asset
  fetcher, Date.now), and the mutable per-crawl state (visitedUrls,
  downloadedAssets, assetMap) is an explicit CState record threaded
  through the functions, extended with ghost logs of fetches, writes
  and logged errors;
* the constructor defaulting of the depth option (source line 107,
  options.maxDepth || 2, under which a configured zero is falsy and
  coerced to 2) is modelled by effMaxDepth, the bound the crawl guard
  reads;
* the unbounded recursion of crawlPage is embedded with a fuel
  parameter; the entry point clone uses effMaxDepth + 2 fuel, and fuel
  irrelevance above that bound is proved (theorem for claim C6).
-/

namespace SiteCloner

/-- Single quote character, written by code point to keep it out of literals. -/
def qc1 : Char := Char.ofNat 39

/-- Consume an exact literal from the front of a list, returning the rest. -/
def eatLit : List Char → List Char → Option (List Char)
  | [], s => some s
  | _ :: _, [] => none
  | p :: ps, c :: cs => if c = p then eatLit ps cs else none

/-- Substring test: does pat occur contiguously in hay. -/
def hasSub : List Char → List Char → Bool
  | [], pat => pat.isEmpty
  | c :: t, pat => (eatLit pat (c :: t)).isSome || hasSub t pat

/-- Boolean test that a string starts with a given literal. -/
def strStarts (s pat : String) : Bool := (eatLit pat.data s.data).isSome

/-- Remove trailing slash characters, as the Node basename scan does. -/
def dropTrailSlashes (cs : List Char) : List Char :=
  ((cs.reverse.dropWhile (fun c => c = '/'))).reverse

/-- Segment after the last slash. -/
def afterLastSlash (cs : List Char) : List Char :=
  ((cs.reverse.takeWhile (fun c => c ≠ '/'))).reverse

/-- Model of Node path.basename on POSIX paths: trailing separators are
ignored, then the part after the last separator is returned. -/
def basenameL (cs : List Char) : List Char := afterLastSlash (dropTrailSlashes cs)

/-- Model of Node path.extname on POSIX paths: the suffix of the final
segment starting at its last dot, except that a dot in first position
(dotfiles), a missing dot, and the segment dot-dot give an empty result. -/
def extnameL (cs : List Char) : List Char :=
  let seg := basenameL cs
  if seg = ['.', '.'] then []
  else
    let rt := seg.reverse.takeWhile (fun c => c ≠ '.')
    if rt.length = seg.length then []
    else if rt.length + 1 = seg.length then []
    else seg.drop (seg.length - (rt.length + 1))

/-- Split a character list on slash characters. -/
def splitSlash (cs : List Char) : List (List Char) :=
  cs.foldr
    (fun c acc =>
      if c = '/' then [] :: acc
      else
        match acc with
        | [] => [[c]]
        | g :: t => (c :: g) :: t)
    [[]]

/-- Drop empty and single-dot segments, as Node path normalisation does.
Dot-dot segments do not occur in the paths the crawler builds and are
kept verbatim. -/
def normSegs (segs : List (List Char)) : List (List Char) :=
  segs.filter (fun g => !(g.isEmpty || g == ['.']))

/-- Model of Node path.join on relative POSIX paths: concatenate the
parts with slashes and normalise away empty and single-dot segments. -/
def pathJoin (parts : List String) : String :=
  ⟨List.intercalate ['/'] (normSegs (parts.foldr (fun p acc => splitSlash p.data ++ acc) []))⟩

/-- Keep first occurrences, in order; models iterating a JS Set built
from a list. -/
def dedupF (l : List String) : List String :=
  l.foldl (fun acc x => if acc.contains x then acc else acc ++ [x]) []

/-- Set-style insert used for visitedUrls and downloadedAssets. -/
def insertS (x : String) (l : List String) : List String :=
  if l.contains x then l else l ++ [x]

/-- Association-list lookup, modelling Map.get. -/
def lookupA (m : List (String × String)) (k : String) : Option String :=
  (m.find? (fun p => p.1 == k)).map (fun p => p.2)

/-- Parsed absolute URL: scheme, host and path component. -/
structure Url where
  scheme : String
  host : String
  pathname : String
deriving DecidableEq

/-- Serialisation back to a string, modelling the href getter. -/
def Url.href (u : Url) : String := u.scheme ++ "://" ++ u.host ++ u.pathname

/-- Shared tail of the URL parser: split host and path, reject an empty
host or a host containing a space (modelling a parse failure), default
the path to a single slash. -/
def parseHostPath (scheme : String) (rest : List Char) : Option Url :=
  let h := rest.takeWhile (fun c => c ≠ '/')
  let p := rest.dropWhile (fun c => c ≠ '/')
  if h.isEmpty then none
  else if h.contains ' ' then none
  else some ⟨scheme, ⟨h⟩, if p.isEmpty then "/" else ⟨p⟩⟩

/-- Model of new URL(s) for absolute http and https URLs. -/
def parseUrl (s : String) : Option Url :=
  match eatLit "http://".data s.data with
  | some r => parseHostPath "http" r
  | none =>
    match eatLit "https://".data s.data with
    | some r => parseHostPath "https" r
    | none => none

/-- Directory part of a path: everything up to and including the last
slash. -/
def dirOf (p : String) : String := ⟨(p.data.reverse.dropWhile (fun c => c ≠ '/')).reverse⟩

/-- Model of new URL(ref, base) for the reference shapes the crawler
meets: absolute, protocol-relative, root-relative and plain relative. -/
def resolveRef (ref : String) (base : Url) : Option Url :=
  if strStarts ref "http://" || strStarts ref "https://" then parseUrl ref
  else if strStarts ref "//" then parseUrl (base.scheme ++ ":" ++ ref)
  else if strStarts ref "/" then some ⟨base.scheme, base.host, ref⟩
  else if ref = "" then some base
  else some ⟨base.scheme, base.host, dirOf base.pathname ++ ref⟩

/-- Document element: tag name plus attribute association list. -/
structure Elem where
  tag : String
  attrs : List (String × String)
deriving DecidableEq

/-- Attribute read, modelling the cheerio attr getter. -/
def getAttr (e : Elem) (n : String) : Option String :=
  (e.attrs.find? (fun p => p.1 == n)).map (fun p => p.2)

def setAttrList : List (String × String) → String → String → List (String × String)
  | [], n, v => [(n, v)]
  | (k, w) :: t, n, v => if k = n then (n, v) :: t else (k, w) :: setAttrList t n v

/-- Attribute write, modelling the cheerio attr setter. -/
def setAttr (e : Elem) (n v : String) : Elem := ⟨e.tag, setAttrList e.attrs n v⟩

/-- Parsed document: elements in document order. -/
structure Doc where
  elems : List Elem
deriving DecidableEq

/-- Replace the element at one index, modelling mutation through a held
element reference. -/
def updElem (d : Doc) (i : Nat) (f : Elem → Elem) : Doc :=
  ⟨d.elems.mapIdx (fun j e => if j = i then f e else e)⟩

/-- Whitespace class of the regular expression escape backslash-s,
restricted to the ASCII members. -/
def isWs (c : Char) : Bool :=
  c = ' ' || c = '\t' || c = '\n' || c = '\r' || c = '\x0b' || c = '\x0c'

def isQuote (c : Char) : Bool := c = qc1 || c = '"'

/-- Character class of the capture group: anything but a quote, a close
paren or whitespace. -/
def groupChar (c : Char) : Bool := !(isQuote c || c = ')' || isWs c)

/-- Decomposition of a match of the background-image regular expression:
the text is pre, the literal background-image colon, whitespace sp, the
literal url open-paren, optional quote q1, group grp, optional quote q2,
a close paren, and post. -/
structure BgMatch where
  pre : List Char
  sp : List Char
  q1 : List Char
  grp : List Char
  q2 : List Char
  post : List Char
deriving DecidableEq

/-- Greedy consumption of one optional quote character. -/
def optQuote (r : List Char) : List Char × List Char :=
  match r with
  | c :: t => if isQuote c then ([c], t) else ([], c :: t)
  | [] => ([], [])

/-- Matcher for the part of the pattern after the url open-paren:
optional quote, nonempty group, optional quote, close paren. The
optional quotes need no further backtracking: when taking a quote leads
to failure, the branch without it fails as well, because a quote is not
a group character and cannot be the close paren. -/
def bgTail (r : List Char) : Option (List Char × List Char × List Char × List Char) :=
  let q1 := (optQuote r).1
  let r1 := (optQuote r).2
  let g := r1.takeWhile groupChar
  let r2 := r1.dropWhile groupChar
  if g.isEmpty then none
  else
    let q2 := (optQuote r2).1
    let r3 := (optQuote r2).2
    match r3 with
    | ')' :: rest => some (q1, g, q2, rest)
    | _ => none

/-- Match of the full pattern anchored at the current position. -/
def bgAt (cs : List Char) : Option BgMatch :=
  match eatLit "background-image:".data cs with
  | none => none
  | some r0 =>
    let sp := r0.takeWhile isWs
    let r1 := r0.dropWhile isWs
    match eatLit "url(".data r1 with
    | none => none
    | some r2 =>
      match bgTail r2 with
      | none => none
      | some (q1, g, q2, rest) => some ⟨[], sp, q1, g, q2, rest⟩

/-- Leftmost match of the background-image url pattern, modelling
String.prototype.match with a non-global regular expression. -/
def findBg : List Char → Option BgMatch
  | [] => none
  | c :: t =>
    match bgAt (c :: t) with
    | some m => some m
    | none => (findBg t).map (fun m => ⟨c :: m.pre, m.sp, m.q1, m.grp, m.q2, m.post⟩)

/-- Model of originalStyle.replace(regex, replacement) in
updateAssetReference: the first match is replaced by the literal
background-image colon space url open-paren quote path quote close-paren. -/
def replaceBg (st : String) (rel : String) : String :=
  match findBg st.data with
  | none => st
  | some m =>
    ⟨m.pre ++ "background-image: url(".data ++ [qc1] ++ rel.data ++ [qc1] ++ ')' :: m.post⟩

/-- Transient asset reference produced by the document scan, keeping the
element by index; ty is the category field named type in the source. -/
structure AssetRef where
  idx : Nat
  attr : String
  url : String
  ty : String
  isStyle : Bool
  originalStyle : String
deriving DecidableEq

/-- Document scan of processAssets: img src, stylesheet link href,
script src, then elements whose style attribute contains the substring
background-image or the substring background colon and whose style text
matches the background-image url pattern (first match only, category
forced to image). -/
def collectAssets (d : Doc) : List AssetRef :=
  let ie := d.elems.enum
  let imgs := ie.filterMap (fun p =>
    if p.2.tag = "img" then
      match getAttr p.2 "src" with
      | some s => if s ≠ "" then some ⟨p.1, "src", s, "image", false, ""⟩ else none
      | none => none
    else none)
  let css := ie.filterMap (fun p =>
    if p.2.tag = "link" ∧ getAttr p.2 "rel" = some "stylesheet" then
      match getAttr p.2 "href" with
      | some h => if h ≠ "" then some ⟨p.1, "href", h, "css", false, ""⟩ else none
      | none => none
    else none)
  let js := ie.filterMap (fun p =>
    if p.2.tag = "script" then
      match getAttr p.2 "src" with
      | some s => if s ≠ "" then some ⟨p.1, "src", s, "js", false, ""⟩ else none
      | none => none
    else none)
  let bgs := ie.filterMap (fun p =>
    match getAttr p.2 "style" with
    | some st =>
      if hasSub st.data "background-image".data || hasSub st.data "background:".data then
        match findBg st.data with
        | some m => some ⟨p.1, "style", ⟨m.grp⟩, "image", true, st⟩
        | none => none
      else none
    | none => none)
  imgs ++ css ++ js ++ bgs

/-- External effects of a run: page fetcher, asset fetcher returning the
content-type header on success, and the clock read by Date.now. -/
structure World where
  fetchPage : String → Option Doc
  fetchAsset : String → Option (Option String)
  now : Nat

/-- Crawl configuration, the raw constructor options of WebsiteCloner;
the maxDepth field is the option before the constructor defaulting. -/
structure Config where
  url : String
  outputDir : String
  maxDepth : Nat
  downloadAssets : Bool

/-- Effective depth bound computed by the constructor (source line 107,
this.maxDepth = options.maxDepth || 2): a configured maxDepth of zero
is falsy in JavaScript and is coerced to the default 2; any other
non-negative option is kept. -/
def effMaxDepth (cfg : Config) : Nat :=
  if cfg.maxDepth = 0 then 2 else cfg.maxDepth

/-- Hostname of the configured root URL, this.baseUrl.hostname. The
constructor requires the configured URL to parse; the empty fallback is
unreachable in a constructed cloner. -/
def rootHost (cfg : Config) : String :=
  match parseUrl cfg.url with
  | some u => u.host
  | none => ""

/-- Mutable crawl state: the three stores of the source plus ghost logs
of page fetch attempts (with their depth), asset fetch attempts, files
written, asset files written, and logged errors. -/
structure CState where
  visited : List String
  downloadedAssets : List String
  assetMap : List (String × String)
  pageFetches : List (String × Nat)
  assetFetches : List String
  written : List (String × Doc)
  assetWrites : List String
  errors : List String
deriving DecidableEq

def initState : CState := ⟨[], [], [], [], [], [], [], []⟩

/-- Model of guessExtension: fixed MIME-to-extension table applied to
the content-type up to the first semicolon; unknown and missing
content-types give an empty extension. -/
def guessExtension (ct : Option String) : String :=
  match ct with
  | none => ""
  | some c =>
    let key : String := ⟨c.data.takeWhile (fun x => x ≠ ';')⟩
    if key = "text/css" then ".css"
    else if key = "application/javascript" then ".js"
    else if key = "text/javascript" then ".js"
    else if key = "image/jpeg" then ".jpg"
    else if key = "image/png" then ".png"
    else if key = "image/gif" then ".gif"
    else if key = "image/svg+xml" then ".svg"
    else if key = "image/webp" then ".webp"
    else ""

/-- Model of isInternalLink: empty, hash, mailto and tel references are
external; otherwise resolve against the page URL and compare the
hostname with the root hostname; any resolution failure is external. -/
def isInternalLink (cfg : Config) (h pageUrl : String) : Bool :=
  if h = "" || strStarts h "#" || strStarts h "mailto:" || strStarts h "tel:" then false
  else
    match parseUrl pageUrl with
    | none => false
    | some b =>
      match resolveRef h b with
      | none => false
      | some u => u.host == rootHost cfg

/-- Model of getFilename on the path component of the parsed URL. -/
def getFileL (p : List Char) : List Char :=
  if p = ['/'] ∨ p = [] then "index.html".data
  else if p.reverse.head? = some '/' then p ++ "index.html".data
  else if extnameL p = [] then p ++ ".html".data
  else p.drop 1

/-- String wrapper of getFileL, taking the path component directly. -/
def getFilenamePath (s : String) : String := ⟨getFileL s.data⟩

/-- Model of getFilename on a full URL string. The source constructor
new URL(url) throws on an unparsable input, which never happens on the
URL strings the crawler feeds it; that branch returns the empty string
here. -/
def getFilename (s : String) : String :=
  match parseUrl s with
  | some u => getFilenamePath u.pathname
  | none => ""

/-- Model of updateAssetReference: backslashes of the local path are
normalised to slashes; a style-attribute reference replaces only the
matched url portion of the saved original style text; a plain reference
overwrites the owning attribute. -/
def updateAssetReference (a : AssetRef) (localPath : String) (d : Doc) : Doc :=
  let rel : String := ⟨localPath.data.map (fun c => if c = '\\' then '/' else c)⟩
  if a.isStyle then updElem d a.idx (fun e => setAttr e "style" (replaceBg a.originalStyle rel))
  else updElem d a.idx (fun e => setAttr e a.attr rel)

/-- Filename derivation of downloadAsset (source lines 248 to 251): the
basename of the URL path, or a clock-derived fallback when that
basename is empty; the extension is the existing one, or is guessed
from the content-type; the extension is appended only when the name
holds no dot at all. -/
def assetFilename (now : Nat) (urlPath : String) (ct : Option String) : List Char :=
  let fname0 := basenameL urlPath.data
  let filename : List Char :=
    if fname0.isEmpty then "asset_".data ++ (toString now).data else fname0
  let ext : List Char :=
    if extnameL filename = [] then (guessExtension ct).data else extnameL filename
  if filename.contains '.' then filename else filename ++ ext

/-- Model of downloadAsset. The whole body of the source is inside a
try block whose catch only logs, so every failure path returns the
incoming document and state with an error appended. The path recorded
in assetMap is path.relative(outputDir, path.join(outputDir, assets,
type, finalFilename)), which for the relative output paths the crawler
builds is the joined path below outputDir. -/
def downloadAsset (W : World) (cfg : Config) (a : AssetRef) (pageUrl : String)
    (d : Doc) (s : CState) : Doc × CState :=
  match parseUrl pageUrl with
  | none => (d, { s with errors := s.errors ++ ["asset " ++ a.url] })
  | some base =>
    match resolveRef a.url base with
    | none => (d, { s with errors := s.errors ++ ["asset " ++ a.url] })
    | some u =>
      let absU := u.href
      if s.downloadedAssets.contains absU then
        match lookupA s.assetMap absU with
        | some lp => (updateAssetReference a lp d, s)
        | none => (d, { s with errors := s.errors ++ ["asset " ++ a.url] })
      else
        let s1 := { s with assetFetches := s.assetFetches ++ [absU] }
        match W.fetchAsset absU with
        | none => (d, { s1 with errors := s1.errors ++ ["asset " ++ a.url] })
        | some ct =>
          let finalName : List Char := assetFilename W.now u.pathname ct
          let localFilePath := pathJoin [cfg.outputDir, "assets", a.ty, ⟨finalName⟩]
          let relativePath := pathJoin ["assets", a.ty, ⟨finalName⟩]
          let s2 := { s1 with
            assetWrites := s1.assetWrites ++ [localFilePath],
            downloadedAssets := s1.downloadedAssets ++ [absU],
            assetMap := s1.assetMap ++ [(absU, relativePath)] }
          (updateAssetReference a relativePath d, s2)

/-- Model of processAssets: scan the document, then download the found
references sequentially, threading the mutated document and state. -/
def processAssets (W : World) (cfg : Config) (d : Doc) (pageUrl : String)
    (s : CState) : Doc × CState :=
  (collectAssets d).foldl (fun p a => downloadAsset W cfg a pageUrl p.1 p.2) (d, s)

/-- Per-element step of rewriteLinks: an anchor whose reference is
internal gets the local filename of the resolved target. The resolution
cannot fail once isInternalLink approved the reference; the fallthrough
keeps the element. -/
def rewriteElem (cfg : Config) (pageUrl : String) (e : Elem) : Elem :=
  if e.tag = "a" then
    match getAttr e "href" with
    | some h =>
      if isInternalLink cfg h pageUrl then
        match parseUrl pageUrl with
        | some b =>
          match resolveRef h b with
          | some u => setAttr e "href" (getFilename u.href)
          | none => e
        | none => e
      else e
    | none => e
  else e

/-- Model of rewriteLinks over the whole document. -/
def rewriteLinks (cfg : Config) (d : Doc) (pageUrl : String) : Doc :=
  ⟨d.elems.map (rewriteElem cfg pageUrl)⟩

/-- Model of extractInternalLinks: internal anchor references of the
(already rewritten) document, resolved to absolute form, excluding URLs
already visited, deduplicated keeping first occurrences. -/
def extractInternalLinks (cfg : Config) (d : Doc) (pageUrl : String)
    (visited : List String) : List String :=
  let links := d.elems.foldl
    (fun acc e =>
      if e.tag = "a" then
        match getAttr e "href" with
        | some h =>
          if h ≠ "" ∧ isInternalLink cfg h pageUrl then
            match parseUrl pageUrl with
            | some b =>
              match resolveRef h b with
              | some u => if visited.contains u.href then acc else acc ++ [u.href]
              | none => acc
            | none => acc
          else acc
        | none => acc
      else acc)
    []
  dedupF links

/-- Model of crawlPage with a fuel parameter for the recursion. The
guard, the fetch, the visited insertion, asset processing, link
rewriting, the file write and the recursion over extracted links follow
the source order; a page fetch failure only logs. -/
def crawlPage (W : World) (cfg : Config) : Nat → String → Nat → CState → CState
  | 0, _, _, s => s
  | fuel + 1, url, depth, s =>
    if depth > effMaxDepth cfg || s.visited.contains url then s
    else
      let s1 := { s with pageFetches := s.pageFetches ++ [(url, depth)] }
      match W.fetchPage url with
      | none => { s1 with errors := s1.errors ++ ["crawl " ++ url] }
      | some doc =>
        let s2 := { s1 with visited := insertS url s1.visited }
        let ds := if cfg.downloadAssets then processAssets W cfg doc url s2 else (doc, s2)
        let doc2 := rewriteLinks cfg ds.1 url
        let s3 := { ds.2 with
          written := ds.2.written ++ [(pathJoin [cfg.outputDir, getFilename url], doc2)] }
        let links := extractInternalLinks cfg doc2 url s3.visited
        links.foldl (fun st l => crawlPage W cfg fuel l (depth + 1) st) s3

/-- Model of clone: crawl from the configured URL at depth zero. The
fuel effMaxDepth + 2 is enough: the depth guard stops every call whose
depth exceeds the effective bound, so the recursion never reaches the
fuel bound (proved as part of claim C6). -/
def clone (W : World) (cfg : Config) : CState :=
  crawlPage W cfg (effMaxDepth cfg + 2) cfg.url 0 initState

/-- Store invariant of claim C1: the downloaded set and the key set of
the asset map agree. -/
def invDA (s : CState) : Prop :=
  ∀ x : String, x ∈ s.downloadedAssets ↔ x ∈ s.assetMap.map Prod.fst

/-- Default configuration of the concrete scenarios: root at site.test,
default output directory, depth two, assets on. -/
def cfgT : Config := ⟨"http://site.test/", "./cloned-site", 2, true⟩

/-- Depth-zero variant of the scenario configuration. -/
def cfg0 : Config := ⟨"http://site.test/", "./cloned-site", 0, true⟩

/-- Configuration rooted at a page without extension, for claim C4. -/
def cfgAbout : Config := ⟨"http://site.test/about", "./cloned-site", 2, true⟩

/-- Root page holding a single link back to the root itself. -/
def docRootA : Doc := ⟨[⟨"a", [("href", "/")]⟩]⟩

/-- Site with one page that links back to its own root. -/
def worldA : World :=
  { fetchPage := fun u => if u = "http://site.test/" then some docRootA else none
    fetchAsset := fun _ => none
    now := 0 }

/-- Home page of the dedup scenario: shared stylesheet plus a link to a
second page. -/
def docHome : Doc :=
  ⟨[⟨"link", [("rel", "stylesheet"), ("href", "/css/site.css")]⟩, ⟨"a", [("href", "/p2")]⟩]⟩

/-- Second page of the dedup scenario with the same stylesheet. -/
def docP2 : Doc := ⟨[⟨"link", [("rel", "stylesheet"), ("href", "/css/site.css")]⟩]⟩

/-- Site of the dedup scenario. The link rewriter turns the href /p2
into /p2.html before extraction, so the second fetched URL carries the
html suffix. -/
def worldB : World :=
  { fetchPage := fun u =>
      if u = "http://site.test/" then some docHome
      else if u = "http://site.test/p2.html" then some docP2
      else none
    fetchAsset := fun u =>
      if u = "http://site.test/css/site.css" then some (some "text/css") else none
    now := 0 }

/-- Empty page served at the about URL for claim C4. -/
def docAbout : Doc := ⟨[]⟩

/-- Site serving only the about page. -/
def worldC : World :=
  { fetchPage := fun u => if u = "http://site.test/about" then some docAbout else none
    fetchAsset := fun _ => none
    now := 0 }

/-- World whose asset fetcher always succeeds with content type
image/png; its page fetcher always fails. -/
def worldH : World :=
  { fetchPage := fun _ => none
    fetchAsset := fun _ => some (some "image/png")
    now := 0 }

/-- World whose asset fetcher always succeeds without a content-type
header. -/
def worldBgOk : World :=
  { fetchPage := fun _ => none
    fetchAsset := fun _ => some none
    now := 0 }

/-- Page with an image whose basename is a dotfile, for claim C9. -/
def docHid : Doc := ⟨[⟨"img", [("src", "/img/.hidden")]⟩]⟩

/-- Page with an extensionless image, the logo scenario of claim C9. -/
def docLogo : Doc := ⟨[⟨"img", [("src", "/img/logo")]⟩]⟩

/-- Page referencing the URL /x through an image element. -/
def docX1 : Doc := ⟨[⟨"img", [("src", "/x")]⟩]⟩

/-- Page referencing the same URL /x through a script element. -/
def docX2 : Doc := ⟨[⟨"script", [("src", "/x")]⟩]⟩

/-- Element whose style holds a background shorthand declaration with a
url value but no background-image declaration, for claim C8. -/
def docBgBad : Doc := ⟨[⟨"div", [("style", "background: url(/bg.jpg)")]⟩]⟩

/-- Element whose style holds a background-image declaration surrounded
by other declarations, for claim C8. -/
def docBg : Doc :=
  ⟨[⟨"div", [("style", "color: red; background-image: url(/bg.jpg); padding: 2px")]⟩]⟩

/-- Anchor to a foreign host, for claim C7. -/
def docExt : Doc := ⟨[⟨"a", [("href", "https://other.example/x")]⟩]⟩

end SiteCloner

namespace SiteCloner

theorem data_append (a b : String) : (a ++ b).data = a.data ++ b.data := by
  cases a; cases b; rfl

theorem strEq {a b : String} (h : a.data = b.data) : a = b := by
  cases a; cases b; cases h; rfl

theorem contains_iff_mem {α : Type} [BEq α] [LawfulBEq α] (l : List α) (x : α) :
    l.contains x = true ↔ x ∈ l := by
  simp [List.contains, List.elem_iff]

theorem foldl_pres {α : Type} {β : Type} (P : α → Prop) (f : α → β → α) :
    ∀ (l : List β) (s : α), P s → (∀ s b, P s → P (f s b)) → P (l.foldl f s)
  | [], _, h, _ => h
  | b :: t, s, h, hf => foldl_pres P f t (f s b) (hf s b h) hf

theorem foldl_fun_congr {α : Type} {β : Type} (f g : α → β → α) (h : ∀ a b, f a b = g a b) :
    ∀ (l : List β) (a : α), l.foldl f a = l.foldl g a
  | [], _ => rfl
  | b :: t, a => by
      rw [List.foldl_cons, List.foldl_cons, h]
      exact foldl_fun_congr f g h t (g a b)

theorem takeWhile_append_all (f : Char → Bool) :
    ∀ (l1 l2 : List Char), (∀ c ∈ l1, f c = true) →
      (l1 ++ l2).takeWhile f = l1 ++ l2.takeWhile f
  | [], _, _ => rfl
  | c :: t, l2, h => by
      have hc : f c = true := h c (List.mem_cons_self c t)
      simp only [List.cons_append, List.takeWhile_cons, hc, if_true]
      rw [takeWhile_append_all f t l2 (fun x hx => h x (List.mem_cons_of_mem c hx))]

theorem afterLastSlash_append (cs ls : List Char) (h : ∀ c ∈ ls, c ≠ '/') :
    afterLastSlash (cs ++ ls) = afterLastSlash cs ++ ls := by
  unfold afterLastSlash
  rw [List.reverse_append,
    takeWhile_append_all _ ls.reverse cs.reverse
      (by intro c hc; simpa using h c (List.mem_reverse.mp hc)),
    List.reverse_append, List.reverse_reverse]

theorem dropTrailSlashes_append (cs ls : List Char) (a : Char)
    (h1 : ls.reverse.head? = some a) (h2 : a ≠ '/') :
    dropTrailSlashes (cs ++ ls) = cs ++ ls := by
  unfold dropTrailSlashes
  rw [List.reverse_append]
  cases hrev : ls.reverse with
  | nil => rw [hrev] at h1; simp at h1
  | cons b t =>
    rw [hrev] at h1
    have hb : b = a := by simpa using h1
    have hls : ls = (b :: t).reverse := by rw [← hrev, List.reverse_reverse]
    subst hb
    have hslash : (decide (b = '/')) = false := by
      simp only [decide_eq_false_iff_not]; exact h2
    rw [List.cons_append, List.dropWhile_cons, hslash]
    simp [hls, List.reverse_append]

theorem afterLastSlash_ne_nil (cs : List Char) (h1 : cs ≠ [])
    (h2 : cs.reverse.head? ≠ some '/') : afterLastSlash cs ≠ [] := by
  unfold afterLastSlash
  cases hrev : cs.reverse with
  | nil => exact absurd (by simpa using congrArg List.reverse hrev) h1
  | cons a t =>
    rw [hrev] at h2
    have ha : a ≠ '/' := by intro h; exact h2 (by simp [h])
    simp [List.takeWhile_cons, ha]

theorem basenameL_append_html (cs : List Char) :
    basenameL (cs ++ ".html".data) = afterLastSlash cs ++ ".html".data := by
  unfold basenameL
  rw [dropTrailSlashes_append cs ".html".data 'l' (by decide) (by decide),
    afterLastSlash_append cs ".html".data (by decide)]

theorem takeWhile_html (rest : List Char) :
    (('l' :: 'm' :: 't' :: 'h' :: '.' :: rest).takeWhile (fun c => c ≠ '.')) =
      ['l', 'm', 't', 'h'] := rfl

theorem extnameL_append_html (cs : List Char) (h1 : cs ≠ [])
    (h2 : cs.reverse.head? ≠ some '/') :
    extnameL (cs ++ ".html".data) = ".html".data := by
  have hA : afterLastSlash cs ≠ [] := afterLastSlash_ne_nil cs h1 h2
  have hAl : 0 < (afterLastSlash cs).length := List.length_pos.mpr hA
  unfold extnameL
  rw [basenameL_append_html cs]
  set A := afterLastSlash cs with hAdef
  have hrev : (A ++ ".html".data).reverse = 'l' :: 'm' :: 't' :: 'h' :: '.' :: A.reverse := by
    rw [List.reverse_append]; rfl
  have hlen : (A ++ ".html".data).length = A.length + 5 := by
    rw [List.length_append]; rfl
  have h4 : (['l', 'm', 't', 'h'] : List Char).length = 4 := rfl
  dsimp only
  rw [hrev, takeWhile_html, if_neg ?hdd, h4, if_neg ?hc1, if_neg ?hc2, hlen]
  case hdd =>
    intro heq
    have hl2 := congrArg List.length heq
    rw [hlen] at hl2
    have h22 : (['.', '.'] : List Char).length = 2 := rfl
    rw [h22] at hl2
    omega
  case hc1 => rw [hlen]; omega
  case hc2 => rw [hlen]; omega
  have hidx : A.length + 5 - (4 + 1) = A.length := by omega
  rw [hidx]
  exact List.drop_left A ".html".data

end SiteCloner

namespace SiteCloner

/-- Claim C4: getFilename maps a root path to index.html, a path ending
in a slash to the path with index.html appended, a path whose last
segment has no extension to the path with .html appended, and any other
path to the path with its leading separator stripped; consequently the
page at http://site.test/about is written to about.html below the
output directory. -/
theorem C4_getFilename_cases :
    (getFilenamePath "/" = "index.html" ∧ getFilenamePath "" = "index.html") ∧
    (∀ p : String, p.data ≠ ['/'] → p.data ≠ [] → p.data.reverse.head? = some '/' →
      getFilenamePath p = p ++ "index.html") ∧
    (∀ p : String, p.data ≠ ['/'] → p.data ≠ [] → p.data.reverse.head? ≠ some '/' →
      extnameL p.data = [] → getFilenamePath p = p ++ ".html") ∧
    (∀ p : String, p.data ≠ ['/'] → p.data ≠ [] → p.data.reverse.head? ≠ some '/' →
      extnameL p.data ≠ [] → getFilenamePath p = ⟨p.data.drop 1⟩) ∧
    (clone worldC cfgAbout).written.map Prod.fst = ["cloned-site/about.html"] := by
  refine ⟨⟨by decide, by decide⟩, ?_, ?_, ?_, by decide⟩
  · intro p hp1 hp2 hp3
    apply strEq
    rw [data_append]
    show getFileL p.data = p.data ++ "index.html".data
    unfold getFileL
    rw [if_neg ?hr, if_pos hp3]
    case hr =>
      rintro (h | h)
      · exact hp1 h
      · exact hp2 h
  · intro p hp1 hp2 hp3 hp4
    apply strEq
    rw [data_append]
    show getFileL p.data = p.data ++ ".html".data
    unfold getFileL
    rw [if_neg ?hr, if_neg hp3, if_pos hp4]
    case hr =>
      rintro (h | h)
      · exact hp1 h
      · exact hp2 h
  · intro p hp1 hp2 hp3 hp4
    apply strEq
    show getFileL p.data = p.data.drop 1
    unfold getFileL
    rw [if_neg ?hr, if_neg hp3, if_neg hp4]
    case hr =>
      rintro (h | h)
      · exact hp1 h
      · exact hp2 h

/-- Witness for claim C4 at concrete paths. -/
theorem C4_getFilename_cases_witness :
    getFilenamePath "/blog/" = "/blog/" ++ "index.html" ∧
    getFilenamePath "/about" = "/about" ++ ".html" ∧
    getFilenamePath "/logo.png" = ⟨"/logo.png".data.drop 1⟩ :=
  ⟨C4_getFilename_cases.2.1 "/blog/" (by decide) (by decide) (by decide),
   C4_getFilename_cases.2.2.1 "/about" (by decide) (by decide) (by decide) (by decide),
   C4_getFilename_cases.2.2.2.1 "/logo.png" (by decide) (by decide) (by decide) (by decide)⟩

/-- Counterexample to claim C5: getFilename is not idempotent. At the
URL http://site.test/about the first application yields /about.html
(leading separator kept by the no-extension branch), and re-applying
the function to that output strips the separator, yielding about.html. -/
theorem C5_idempotent_counterexample :
    getFilenamePath (getFilename "http://site.test/about") ≠
      getFilename "http://site.test/about" := by decide

/-- Amended claim C5: getFilename is pure and deterministic and never
appends a second .html to a path that already has an extension, but it
is not idempotent: for a non-root path with no extension not ending in
a slash, the first application appends .html and keeps the leading
separator, and the second application takes the verbatim branch and
strips the leading character. -/
theorem C5_getFilename_not_idempotent :
    (∀ p : String, p.data ≠ ['/'] → p.data ≠ [] → p.data.reverse.head? ≠ some '/' →
      extnameL p.data = [] →
      getFilenamePath p = p ++ ".html" ∧
      getFilenamePath (p ++ ".html") = ⟨(p.data ++ ".html".data).drop 1⟩) ∧
    (∀ p : String, p.data ≠ ['/'] → p.data ≠ [] → p.data.reverse.head? ≠ some '/' →
      extnameL p.data ≠ [] → getFilenamePath p = ⟨p.data.drop 1⟩) := by
  constructor
  · intro p hp1 hp2 hp3 hp4
    have hlen : (p.data ++ ".html".data).length = p.data.length + 5 := by
      rw [List.length_append]; rfl
    have hhd : (p.data ++ ".html".data).reverse.head? = some 'l' := by
      rw [List.reverse_append]; rfl
    constructor
    · apply strEq
      rw [data_append]
      show getFileL p.data = p.data ++ ".html".data
      unfold getFileL
      rw [if_neg ?hr, if_neg hp3, if_pos hp4]
      case hr =>
        rintro (h | h)
        · exact hp1 h
        · exact hp2 h
    · apply strEq
      show getFileL (p ++ ".html").data = (p.data ++ ".html".data).drop 1
      rw [data_append]
      unfold getFileL
      rw [if_neg ?hr2, if_neg ?hs2, if_neg ?he2]
      case hr2 =>
        rintro (h | h)
        · have := congrArg List.length h
          rw [hlen] at this
          simp at this
        · have := congrArg List.length h
          rw [hlen] at this
          simp at this
      case hs2 =>
        intro h
        rw [hhd] at h
        exact absurd h (by decide)
      case he2 =>
        rw [extnameL_append_html p.data hp2 hp3]
        decide
  · intro p hp1 hp2 hp3 hp4
    apply strEq
    show getFileL p.data = p.data.drop 1
    unfold getFileL
    rw [if_neg ?hr, if_neg hp3, if_neg hp4]
    case hr =>
      rintro (h | h)
      · exact hp1 h
      · exact hp2 h

/-- Witness for the amended claim C5 at concrete paths. -/
theorem C5_getFilename_not_idempotent_witness :
    (getFilenamePath "/about" = "/about" ++ ".html" ∧
     getFilenamePath ("/about" ++ ".html") = ⟨("/about".data ++ ".html".data).drop 1⟩) ∧
    getFilenamePath "/a.css" = ⟨"/a.css".data.drop 1⟩ :=
  ⟨C5_getFilename_not_idempotent.1 "/about" (by decide) (by decide) (by decide) (by decide),
   C5_getFilename_not_idempotent.2 "/a.css" (by decide) (by decide) (by decide) (by decide)⟩

end SiteCloner

namespace SiteCloner

theorem eatLit_eq : ∀ (p s r : List Char), eatLit p s = some r → s = p ++ r
  | [], s, r, h => by
      simp only [eatLit, Option.some.injEq] at h
      simp [h]
  | _ :: _, [], _, h => by simp [eatLit] at h
  | p :: ps, c :: cs, r, h => by
      simp only [eatLit] at h
      split at h
      case isTrue hc =>
        subst hc
        rw [List.cons_append]
        exact congrArg (c :: ·) (eatLit_eq ps cs r h)
      case isFalse => exact absurd h (by simp)

theorem eatLit_append : ∀ (p r : List Char), eatLit p (p ++ r) = some r
  | [], _ => rfl
  | c :: t, r => by simp [eatLit, eatLit_append t r]

theorem hasSub_of_eat (hay pat rest : List Char) (hp : pat ≠ [])
    (h : eatLit pat hay = some rest) : hasSub hay pat = true := by
  cases hay with
  | nil =>
    cases pat with
    | nil => exact absurd rfl hp
    | cons a b => simp [eatLit] at h
  | cons c t => simp [hasSub, h]

theorem hasSub_append_left : ∀ (x hay pat : List Char),
    hasSub hay pat = true → hasSub (x ++ hay) pat = true
  | [], _, _, h => h
  | c :: t, hay, pat, h => by
      have ih := hasSub_append_left t hay pat h
      simp only [List.cons_append, hasSub, List.append_eq, ih, Bool.or_true]

theorem optQuote_eq (r : List Char) : (optQuote r).1 ++ (optQuote r).2 = r := by
  cases r with
  | nil => rfl
  | cons c t =>
    by_cases hq : isQuote c = true
    · simp [optQuote, hq]
    · simp [optQuote, hq]

theorem bgTail_eq (r q1 g q2 rest : List Char)
    (h : bgTail r = some (q1, g, q2, rest)) :
    r = q1 ++ (g ++ (q2 ++ ')' :: rest)) ∧ g ≠ [] := by
  simp only [bgTail] at h
  split at h
  · exact absurd h (by simp)
  case isFalse hg =>
    split at h
    case h_1 rest0 heq =>
      simp only [Option.some.injEq, Prod.mk.injEq] at h
      obtain ⟨hq1, hgg, hq2, hrest⟩ := h
      constructor
      · subst hq1 hgg hq2 hrest
        conv_lhs => rw [← optQuote_eq r]
        congr 1
        conv_lhs => rw [← List.takeWhile_append_dropWhile (p := groupChar) (l := (optQuote r).2)]
        congr 1
        rw [← heq]
        exact (optQuote_eq ((optQuote r).2.dropWhile groupChar)).symm
      · subst hgg
        intro hnil
        rw [hnil] at hg
        exact hg rfl
    case h_2 => exact absurd h (by simp)

theorem bgAt_eq (cs : List Char) (m : BgMatch) (h : bgAt cs = some m) :
    cs = "background-image:".data ++ (m.sp ++ ("url(".data ++
      (m.q1 ++ (m.grp ++ (m.q2 ++ ')' :: m.post))))) ∧ m.pre = [] ∧ m.grp ≠ [] := by
  unfold bgAt at h
  cases he : eatLit "background-image:".data cs with
  | none => rw [he] at h; exact absurd h (by simp)
  | some r0 =>
    rw [he] at h
    simp only at h
    cases hu : eatLit "url(".data (r0.dropWhile isWs) with
    | none => rw [hu] at h; exact absurd h (by simp)
    | some r2 =>
      rw [hu] at h
      simp only at h
      cases hb : bgTail r2 with
      | none => rw [hb] at h; exact absurd h (by simp)
      | some q =>
        obtain ⟨q1, g, q2, rest⟩ := q
        rw [hb] at h
        simp only [Option.some.injEq] at h
        obtain ⟨hbt1, hbt2⟩ := bgTail_eq r2 q1 g q2 rest hb
        have hdec : cs = "background-image:".data ++ (r0.takeWhile isWs ++ ("url(".data ++
            (q1 ++ (g ++ (q2 ++ ')' :: rest))))) := by
          calc cs = "background-image:".data ++ r0 := eatLit_eq _ _ _ he
            _ = "background-image:".data ++ (r0.takeWhile isWs ++ r0.dropWhile isWs) := by
                rw [List.takeWhile_append_dropWhile]
            _ = "background-image:".data ++ (r0.takeWhile isWs ++ ("url(".data ++ r2)) := by
                rw [eatLit_eq _ _ _ hu]
            _ = "background-image:".data ++ (r0.takeWhile isWs ++ ("url(".data ++
                (q1 ++ (g ++ (q2 ++ ')' :: rest))))) := by rw [← hbt1]
        rw [← h]
        exact ⟨hdec, rfl, hbt2⟩

theorem findBg_eq : ∀ (cs : List Char) (m : BgMatch), findBg cs = some m →
    cs = m.pre ++ ("background-image:".data ++ (m.sp ++ ("url(".data ++
      (m.q1 ++ (m.grp ++ (m.q2 ++ ')' :: m.post)))))) ∧ m.grp ≠ []
  | [], m, h => by simp [findBg] at h
  | c :: t, m, h => by
      simp only [findBg] at h
      cases hb : bgAt (c :: t) with
      | some m0 =>
        rw [hb] at h
        simp only [Option.some.injEq] at h
        obtain ⟨hdec, hpre, hg⟩ := bgAt_eq (c :: t) m0 hb
        rw [← h]
        refine ⟨?_, hg⟩
        rw [hpre, List.nil_append]
        exact hdec
      | none =>
        rw [hb] at h
        simp only at h
        cases hf : findBg t with
        | none => rw [hf] at h; exact absurd h (by simp)
        | some m1 =>
          rw [hf] at h
          simp only [Option.map] at h
          obtain ⟨mp, msp, mq1, mg, mq2, mpo⟩ := m
          simp only [Option.some.injEq, BgMatch.mk.injEq] at h
          obtain ⟨h1, h2, h3, h4, h5, h6⟩ := h
          obtain ⟨hdec, hg⟩ := findBg_eq t m1 hf
          subst h1 h2 h3 h4 h5 h6
          exact ⟨by simp [hdec], hg⟩

theorem hasSub_bgImage (cs : List Char) (m : BgMatch) (h : findBg cs = some m) :
    hasSub cs "background-image".data = true := by
  obtain ⟨hdec, _⟩ := findBg_eq cs m h
  rw [hdec]
  apply hasSub_append_left
  have hsplit : "background-image:".data = "background-image".data ++ [':'] := by decide
  rw [hsplit, List.append_assoc]
  exact hasSub_of_eat _ _ _ (by decide) (eatLit_append _ _)

end SiteCloner

namespace SiteCloner

/-- Counterexample to claim C8: an element whose inline style holds a
background shorthand declaration with a url value, but no
background-image declaration, is selected by the attribute-substring
selector yet captured by nothing, because the pattern match requires
the literal background-image prefix. No asset reference is produced,
nothing is fetched even though the asset fetcher would succeed, and the
style attribute is left unchanged. -/
theorem C8_background_counterexample :
    hasSub "background: url(/bg.jpg)".data "background:".data = true ∧
    collectAssets docBgBad = [] ∧
    processAssets worldBgOk cfgT docBgBad "http://site.test/" initState =
      (docBgBad, initState) := by
  refine ⟨by decide, by decide, by decide⟩

/-- Amended claim C8: only elements whose inline style matches the
background-image url pattern are captured (first match only, category
forced to image); a matching style is decomposed into a prefix, the
matched portion and a suffix, exactly one asset reference holding the
captured url is produced, and after a successful download only the
matched url portion is replaced, the prefix and suffix of the style
text staying unchanged. -/
theorem C8_background_amended :
    (∀ (cs : List Char) (m : BgMatch), findBg cs = some m →
      cs = m.pre ++ ("background-image:".data ++ (m.sp ++ ("url(".data ++
        (m.q1 ++ (m.grp ++ (m.q2 ++ ')' :: m.post)))))) ∧ m.grp ≠ []) ∧
    (∀ (st : String) (m : BgMatch), findBg st.data = some m →
      collectAssets ⟨[⟨"div", [("style", st)]⟩]⟩ =
        [⟨0, "style", ⟨m.grp⟩, "image", true, st⟩]) ∧
    (∀ (st rel : String) (m : BgMatch), findBg st.data = some m →
      replaceBg st rel =
        ⟨m.pre ++ "background-image: url(".data ++ [qc1] ++ rel.data ++ [qc1] ++
          ')' :: m.post⟩) ∧
    (processAssets worldBgOk cfgT docBg "http://site.test/" initState).1 =
      ⟨[⟨"div", [("style", ⟨"color: red; background-image: url(".data ++ [qc1] ++
        "assets/image/bg.jpg".data ++ [qc1] ++ "); padding: 2px".data⟩)]⟩]⟩ := by
  refine ⟨findBg_eq, ?_, ?_, by decide⟩
  · intro st m h
    have hBI := hasSub_bgImage st.data m h
    simp [collectAssets, getAttr, hBI, h, List.filterMap_cons]
  · intro st rel m h
    unfold replaceBg
    rw [h]

/-- Witness for the amended claim C8 at a concrete style text. -/
theorem C8_background_amended_witness :
    ("background-image: url(/bg.jpg)".data =
      ([] : List Char) ++ ("background-image:".data ++ ([' '] ++ ("url(".data ++
        (([] : List Char) ++ ("/bg.jpg".data ++ (([] : List Char) ++
          ')' :: ([] : List Char))))))) ∧ "/bg.jpg".data ≠ []) ∧
    collectAssets ⟨[⟨"div", [("style", "background-image: url(/bg.jpg)")]⟩]⟩ =
      [⟨0, "style", ⟨"/bg.jpg".data⟩, "image", true, "background-image: url(/bg.jpg)"⟩] ∧
    replaceBg "background-image: url(/bg.jpg)" "assets/image/bg.jpg" =
      ⟨([] : List Char) ++ "background-image: url(".data ++ [qc1] ++
        "assets/image/bg.jpg".data ++ [qc1] ++ ')' :: ([] : List Char)⟩ :=
  ⟨C8_background_amended.1 "background-image: url(/bg.jpg)".data
      ⟨[], [' '], [], "/bg.jpg".data, [], []⟩ (by decide),
   C8_background_amended.2.1 "background-image: url(/bg.jpg)"
      ⟨[], [' '], [], "/bg.jpg".data, [], []⟩ (by decide),
   C8_background_amended.2.2.1 "background-image: url(/bg.jpg)" "assets/image/bg.jpg"
      ⟨[], [' '], [], "/bg.jpg".data, [], []⟩ (by decide)⟩

end SiteCloner

namespace SiteCloner

theorem downloadAsset_parseFail (W : World) (cfg : Config) (a : AssetRef) (pageUrl : String)
    (d : Doc) (s : CState) (hp : parseUrl pageUrl = none) :
    downloadAsset W cfg a pageUrl d s = (d, { s with errors := s.errors ++ ["asset " ++ a.url] }) := by
  simp [downloadAsset, hp]

theorem downloadAsset_resolveFail (W : World) (cfg : Config) (a : AssetRef) (pageUrl : String)
    (d : Doc) (s : CState) (base : Url) (hp : parseUrl pageUrl = some base)
    (hr : resolveRef a.url base = none) :
    downloadAsset W cfg a pageUrl d s = (d, { s with errors := s.errors ++ ["asset " ++ a.url] }) := by
  simp [downloadAsset, hp, hr]

theorem downloadAsset_skip (W : World) (cfg : Config) (a : AssetRef) (pageUrl : String)
    (d : Doc) (s : CState) (base u : Url) (lp : String)
    (hp : parseUrl pageUrl = some base) (hr : resolveRef a.url base = some u)
    (hc : s.downloadedAssets.contains u.href = true)
    (hl : lookupA s.assetMap u.href = some lp) :
    downloadAsset W cfg a pageUrl d s = (updateAssetReference a lp d, s) := by
  have hm : u.href ∈ s.downloadedAssets := (contains_iff_mem _ _).mp hc
  simp [downloadAsset, hp, hr, hc, hl, hm]

theorem downloadAsset_lookupMiss (W : World) (cfg : Config) (a : AssetRef) (pageUrl : String)
    (d : Doc) (s : CState) (base u : Url)
    (hp : parseUrl pageUrl = some base) (hr : resolveRef a.url base = some u)
    (hc : s.downloadedAssets.contains u.href = true)
    (hl : lookupA s.assetMap u.href = none) :
    downloadAsset W cfg a pageUrl d s = (d, { s with errors := s.errors ++ ["asset " ++ a.url] }) := by
  have hm : u.href ∈ s.downloadedAssets := (contains_iff_mem _ _).mp hc
  simp [downloadAsset, hp, hr, hc, hl, hm]

theorem downloadAsset_fetchFail (W : World) (cfg : Config) (a : AssetRef) (pageUrl : String)
    (d : Doc) (s : CState) (base u : Url)
    (hp : parseUrl pageUrl = some base) (hr : resolveRef a.url base = some u)
    (hc : s.downloadedAssets.contains u.href = false)
    (hf : W.fetchAsset u.href = none) :
    downloadAsset W cfg a pageUrl d s =
      (d, { s with assetFetches := s.assetFetches ++ [u.href],
                   errors := s.errors ++ ["asset " ++ a.url] }) := by
  have hm : u.href ∉ s.downloadedAssets := by
    intro hmem
    rw [← contains_iff_mem] at hmem
    rw [hc] at hmem
    exact Bool.false_ne_true hmem
  simp [downloadAsset, hp, hr, hc, hf, hm]

theorem downloadAsset_success (W : World) (cfg : Config) (a : AssetRef) (pageUrl : String)
    (d : Doc) (s : CState) (base u : Url) (ct : Option String)
    (hp : parseUrl pageUrl = some base) (hr : resolveRef a.url base = some u)
    (hc : s.downloadedAssets.contains u.href = false)
    (hf : W.fetchAsset u.href = some ct) :
    downloadAsset W cfg a pageUrl d s =
      (updateAssetReference a (pathJoin ["assets", a.ty, ⟨assetFilename W.now u.pathname ct⟩]) d,
       { s with
         assetFetches := s.assetFetches ++ [u.href],
         assetWrites := s.assetWrites ++
           [pathJoin [cfg.outputDir, "assets", a.ty, ⟨assetFilename W.now u.pathname ct⟩]],
         downloadedAssets := s.downloadedAssets ++ [u.href],
         assetMap := s.assetMap ++
           [(u.href, pathJoin ["assets", a.ty, ⟨assetFilename W.now u.pathname ct⟩])] }) := by
  have hm : u.href ∉ s.downloadedAssets := by
    intro hmem
    rw [← contains_iff_mem] at hmem
    rw [hc] at hmem
    exact Bool.false_ne_true hmem
  simp [downloadAsset, hp, hr, hc, hf, hm]

theorem downloadAsset_state (W : World) (cfg : Config) (a : AssetRef) (pageUrl : String)
    (d : Doc) (s : CState) :
    ((downloadAsset W cfg a pageUrl d s).2.visited = s.visited ∧
     (downloadAsset W cfg a pageUrl d s).2.pageFetches = s.pageFetches ∧
     (downloadAsset W cfg a pageUrl d s).2.written = s.written) ∧
    (((downloadAsset W cfg a pageUrl d s).2.downloadedAssets = s.downloadedAssets ∧
      (downloadAsset W cfg a pageUrl d s).2.assetMap = s.assetMap) ∨
     (∃ k v, (downloadAsset W cfg a pageUrl d s).2.downloadedAssets = s.downloadedAssets ++ [k] ∧
        (downloadAsset W cfg a pageUrl d s).2.assetMap = s.assetMap ++ [(k, v)])) := by
  cases hp : parseUrl pageUrl with
  | none => rw [downloadAsset_parseFail W cfg a pageUrl d s hp]; simp
  | some base =>
    cases hr : resolveRef a.url base with
    | none => rw [downloadAsset_resolveFail W cfg a pageUrl d s base hp hr]; simp
    | some u =>
      by_cases hc : s.downloadedAssets.contains u.href = true
      · cases hl : lookupA s.assetMap u.href with
        | none => rw [downloadAsset_lookupMiss W cfg a pageUrl d s base u hp hr hc hl]; simp
        | some lp => rw [downloadAsset_skip W cfg a pageUrl d s base u lp hp hr hc hl]; simp
      · have hc2 : s.downloadedAssets.contains u.href = false := by simpa using hc
        cases hf : W.fetchAsset u.href with
        | none => rw [downloadAsset_fetchFail W cfg a pageUrl d s base u hp hr hc2 hf]; simp
        | some ct =>
          rw [downloadAsset_success W cfg a pageUrl d s base u ct hp hr hc2 hf]
          exact ⟨⟨rfl, rfl, rfl⟩, Or.inr ⟨u.href, _, rfl, rfl⟩⟩

theorem invDA_downloadAsset (W : World) (cfg : Config) (a : AssetRef) (pageUrl : String)
    (d : Doc) (s : CState) (h : invDA s) : invDA (downloadAsset W cfg a pageUrl d s).2 := by
  obtain ⟨-, hshape⟩ := downloadAsset_state W cfg a pageUrl d s
  rcases hshape with ⟨h1, h2⟩ | ⟨k, v, h1, h2⟩
  · intro x; rw [h1, h2]; exact h x
  · intro x
    rw [h1, h2]
    simp only [List.map_append, List.mem_append, List.map_cons, List.map_nil]
    rw [h x]

end SiteCloner

namespace SiteCloner

theorem processAssets_state (W : World) (cfg : Config) (doc : Doc) (pageUrl : String)
    (s : CState) :
    (processAssets W cfg doc pageUrl s).2.visited = s.visited ∧
    (processAssets W cfg doc pageUrl s).2.pageFetches = s.pageFetches ∧
    (processAssets W cfg doc pageUrl s).2.written = s.written ∧
    (invDA s → invDA (processAssets W cfg doc pageUrl s).2) := by
  unfold processAssets
  refine foldl_pres (fun (p : Doc × CState) =>
      p.2.visited = s.visited ∧ p.2.pageFetches = s.pageFetches ∧
      p.2.written = s.written ∧ (invDA s → invDA p.2))
    (fun p a => downloadAsset W cfg a pageUrl p.1 p.2)
    (collectAssets doc) (doc, s) ⟨rfl, rfl, rfl, fun h => h⟩ ?_
  intro p a hp
  obtain ⟨h1, h2, h3, h4⟩ := hp
  obtain ⟨⟨g1, g2, g3⟩, -⟩ := downloadAsset_state W cfg a pageUrl p.1 p.2
  exact ⟨g1.trans h1, g2.trans h2, g3.trans h3,
    fun hv => invDA_downloadAsset W cfg a pageUrl p.1 p.2 (h4 hv)⟩

theorem mem_basenameL (cs : List Char) (x : Char) (h : x ∈ basenameL cs) : x ∈ cs := by
  unfold basenameL afterLastSlash dropTrailSlashes at h
  rw [List.mem_reverse] at h
  have h2 := (List.takeWhile_sublist _).subset h
  rw [List.mem_reverse, List.mem_reverse] at h2
  have h3 := (List.dropWhile_sublist _).subset h2
  rw [List.mem_reverse] at h3
  exact h3

theorem extnameL_of_no_dot (cs : List Char) (h : ('.' : Char) ∉ cs) : extnameL cs = [] := by
  unfold extnameL
  dsimp only
  by_cases hdd : basenameL cs = ['.', '.']
  · rw [if_pos hdd]
  · rw [if_neg hdd]
    have hall : ∀ c ∈ (basenameL cs).reverse, (fun c => decide (c ≠ '.')) c = true := by
      intro c hc
      simp only [decide_eq_true_eq]
      intro heq
      subst heq
      exact h (mem_basenameL cs '.' (List.mem_reverse.mp hc))
    have hrt := takeWhile_append_all (fun c => decide (c ≠ '.')) (basenameL cs).reverse [] hall
    simp only [List.append_nil, List.takeWhile_nil] at hrt
    rw [hrt, List.length_reverse, if_pos rfl]

theorem assetFilename_nodot (now : Nat) (p : String) (ct : Option String)
    (h1 : basenameL p.data ≠ []) (h2 : ('.' : Char) ∉ basenameL p.data) :
    assetFilename now p ct = basenameL p.data ++ (guessExtension ct).data := by
  have hie : ¬((basenameL p.data).isEmpty = true) := by simpa [List.isEmpty_iff] using h1
  have hcd : ¬((basenameL p.data).contains '.' = true) := by
    intro hcon
    exact h2 ((contains_iff_mem _ _).mp hcon)
  unfold assetFilename
  dsimp only
  rw [if_neg hie, extnameL_of_no_dot _ h2, if_pos rfl, if_neg hcd]

theorem assetFilename_dot (now : Nat) (p : String) (ct : Option String)
    (h1 : basenameL p.data ≠ []) (h2 : (basenameL p.data).contains '.' = true) :
    assetFilename now p ct = basenameL p.data := by
  have hie : ¬((basenameL p.data).isEmpty = true) := by simpa [List.isEmpty_iff] using h1
  unfold assetFilename
  dsimp only
  rw [if_neg hie, if_pos h2]

theorem assetFilename_clock (n1 n2 : Nat) (p : String) (ct : Option String)
    (h1 : basenameL p.data ≠ []) :
    assetFilename n1 p ct = assetFilename n2 p ct := by
  have hie : ¬((basenameL p.data).isEmpty = true) := by simpa [List.isEmpty_iff] using h1
  unfold assetFilename
  dsimp only
  simp only [if_neg hie]

theorem parseHostPath_path (sc : String) (r : List Char) (u : Url)
    (h : parseHostPath sc r = some u) : u.pathname.data ≠ [] := by
  unfold parseHostPath at h
  dsimp only at h
  split at h
  · exact absurd h (by simp)
  split at h
  · exact absurd h (by simp)
  simp only [Option.some.injEq] at h
  rw [← h]
  dsimp only
  split
  · decide
  case isFalse hp =>
    show (r.dropWhile (fun c => c ≠ '/')) ≠ []
    intro hnil
    exact hp (by rw [hnil]; rfl)

theorem parseUrl_path_ne (s : String) (u : Url) (h : parseUrl s = some u) :
    u.pathname.data ≠ [] := by
  unfold parseUrl at h
  cases h1 : eatLit "http://".data s.data with
  | some r => rw [h1] at h; exact parseHostPath_path _ _ _ h
  | none =>
    rw [h1] at h
    simp only at h
    cases h2 : eatLit "https://".data s.data with
    | some r => rw [h2] at h; exact parseHostPath_path _ _ _ h
    | none => rw [h2] at h; exact absurd h (by simp)

theorem basenameL_empty_ends_slash (cs : List Char) (h1 : cs ≠ [])
    (h2 : basenameL cs = []) : cs.reverse.head? = some '/' := by
  cases hrev : cs.reverse with
  | nil => exact absurd (by simpa using congrArg List.reverse hrev) h1
  | cons a t =>
    by_cases ha : a = '/'
    · rw [ha]; rfl
    · exfalso
      have hne : cs.reverse.head? ≠ some '/' := by rw [hrev]; simp [ha]
      have hd : dropTrailSlashes cs = cs := by
        unfold dropTrailSlashes
        rw [hrev, List.dropWhile_cons]
        have hsl : (decide (a = '/')) = false := by simpa using ha
        rw [hsl]
        simp only [Bool.false_eq_true, if_false]
        have := congrArg List.reverse hrev
        simpa using this.symm
      have hnn := afterLastSlash_ne_nil cs h1 hne
      unfold basenameL at h2
      rw [hd] at h2
      exact hnn h2

end SiteCloner

namespace SiteCloner

/-- Counterexample to claim C9: the basename .hidden has no extension
(path.extname of a dotfile is empty) and the content type image/png
maps to .png in the table, yet the saved path keeps the bare name
.hidden, because the source appends the guessed extension only when the
filename holds no dot at all. -/
theorem C9_extension_counterexample :
    extnameL (basenameL "/img/.hidden".data) = [] ∧
    guessExtension (some "image/png") = ".png" ∧
    (processAssets worldH cfgT docHid "http://site.test/" initState).2.assetMap =
      [("http://site.test/img/.hidden", "assets/image/.hidden")] ∧
    ("assets/image/.hidden" : String) ≠ "assets/image/.hidden.png" := by
  refine ⟨by decide, by decide, by decide, by decide⟩

/-- Amended claim C9: the saved filename is the basename of the URL
path; an extension guessed from the content-type table is appended only
when that basename holds no dot at all, while a basename containing a
dot (including dotfiles, which have no extension) is saved verbatim;
the table maps the eight listed MIME types and gives unknown and
missing content types no extension; an image at /img/logo served as
image/png is saved to assets/image/logo.png and its element rewritten
to that path. -/
theorem C9_extension_amended :
    (∀ (now : Nat) (p : String) (ct : Option String), basenameL p.data ≠ [] →
      ('.' : Char) ∉ basenameL p.data →
      assetFilename now p ct = basenameL p.data ++ (guessExtension ct).data) ∧
    (∀ (now : Nat) (p : String) (ct : Option String), basenameL p.data ≠ [] →
      (basenameL p.data).contains '.' = true →
      assetFilename now p ct = basenameL p.data) ∧
    (guessExtension (some "text/css") = ".css" ∧
     guessExtension (some "application/javascript") = ".js" ∧
     guessExtension (some "text/javascript") = ".js" ∧
     guessExtension (some "image/jpeg") = ".jpg" ∧
     guessExtension (some "image/png") = ".png" ∧
     guessExtension (some "image/gif") = ".gif" ∧
     guessExtension (some "image/svg+xml") = ".svg" ∧
     guessExtension (some "image/webp") = ".webp" ∧
     guessExtension (some "application/pdf") = "" ∧
     guessExtension none = "") ∧
    ((processAssets worldH cfgT docLogo "http://site.test/" initState).2.assetMap =
       [("http://site.test/img/logo", "assets/image/logo.png")] ∧
     (processAssets worldH cfgT docLogo "http://site.test/" initState).2.assetWrites =
       ["cloned-site/assets/image/logo.png"] ∧
     (processAssets worldH cfgT docLogo "http://site.test/" initState).1 =
       ⟨[⟨"img", [("src", "assets/image/logo.png")]⟩]⟩) := by
  refine ⟨assetFilename_nodot, assetFilename_dot, by decide, by decide, by decide, by decide⟩

/-- Witness for the amended claim C9 at concrete basenames. -/
theorem C9_extension_amended_witness :
    assetFilename 0 "/img/logo" (some "image/png") =
      basenameL "/img/logo".data ++ (guessExtension (some "image/png")).data ∧
    assetFilename 0 "/img/.hidden" (some "image/png") = basenameL "/img/.hidden".data :=
  ⟨C9_extension_amended.1 0 "/img/logo" (some "image/png") (by decide) (by decide),
   C9_extension_amended.2.1 0 "/img/.hidden" (some "image/png") (by decide) (by decide)⟩

/-- Counterexample to claim C10: the same absolute URL fetched with the
same content type is recorded under two different local paths when it
is referenced once through an image element and once through a script
element, because the category of the first reference is part of the
path. -/
theorem C10_determinism_counterexample :
    (processAssets worldH cfgT docX1 "http://site.test/" initState).2.assetMap =
      [("http://site.test/x", "assets/image/x.png")] ∧
    (processAssets worldH cfgT docX2 "http://site.test/" initState).2.assetMap =
      [("http://site.test/x", "assets/js/x.png")] ∧
    ("assets/image/x.png" : String) ≠ "assets/js/x.png" := by
  refine ⟨by decide, by decide, by decide⟩

/-- Amended claim C10: for an asset whose URL path basename is
non-empty, the outcome of downloadAsset is independent of the clock, so
the recorded path is a deterministic function of the absolute URL, the
reference category and the response content-type; and the basename of a
parsed URL path is empty only when that path ends in a slash. -/
theorem C10_determinism_amended :
    (∀ (W : World) (n1 n2 : Nat) (cfg : Config) (a : AssetRef) (pageUrl : String)
      (d : Doc) (s : CState) (base u : Url),
      parseUrl pageUrl = some base → resolveRef a.url base = some u →
      basenameL u.pathname.data ≠ [] →
      downloadAsset { W with now := n1 } cfg a pageUrl d s =
        downloadAsset { W with now := n2 } cfg a pageUrl d s) ∧
    (∀ (su : String) (u : Url), parseUrl su = some u →
      basenameL u.pathname.data = [] → u.pathname.data.reverse.head? = some '/') := by
  constructor
  · intro W n1 n2 cfg a pageUrl d s base u hp hr hb
    by_cases hc : s.downloadedAssets.contains u.href = true
    · cases hl : lookupA s.assetMap u.href with
      | some lp =>
        rw [downloadAsset_skip _ cfg a pageUrl d s base u lp hp hr hc hl,
          downloadAsset_skip _ cfg a pageUrl d s base u lp hp hr hc hl]
      | none =>
        rw [downloadAsset_lookupMiss _ cfg a pageUrl d s base u hp hr hc hl,
          downloadAsset_lookupMiss _ cfg a pageUrl d s base u hp hr hc hl]
    · have hc2 : s.downloadedAssets.contains u.href = false := by simpa using hc
      cases hf : W.fetchAsset u.href with
      | none =>
        have hf1 : ({ W with now := n1 } : World).fetchAsset u.href = none := hf
        have hf2 : ({ W with now := n2 } : World).fetchAsset u.href = none := hf
        rw [downloadAsset_fetchFail _ cfg a pageUrl d s base u hp hr hc2 hf1,
          downloadAsset_fetchFail _ cfg a pageUrl d s base u hp hr hc2 hf2]
      | some ct =>
        have hf1 : ({ W with now := n1 } : World).fetchAsset u.href = some ct := hf
        have hf2 : ({ W with now := n2 } : World).fetchAsset u.href = some ct := hf
        rw [downloadAsset_success _ cfg a pageUrl d s base u ct hp hr hc2 hf1,
          downloadAsset_success _ cfg a pageUrl d s base u ct hp hr hc2 hf2]
        dsimp only
        rw [assetFilename_clock n1 n2 u.pathname ct hb]
  · intro su u hp hb
    exact basenameL_empty_ends_slash u.pathname.data (parseUrl_path_ne su u hp) hb

/-- Witness for the amended claim C10 at a concrete asset and URL. -/
theorem C10_determinism_amended_witness :
    downloadAsset { worldH with now := 0 } cfgT ⟨0, "src", "/x", "image", false, ""⟩
      "http://site.test/" docX1 initState =
    downloadAsset { worldH with now := 1 } cfgT ⟨0, "src", "/x", "image", false, ""⟩
      "http://site.test/" docX1 initState ∧
    ("http://site.test/" : String).data.reverse.head? = some '/' ∧
    Url.pathname ⟨"http", "site.test", "/"⟩ = "/" :=
  ⟨C10_determinism_amended.1 worldH 0 1 cfgT ⟨0, "src", "/x", "image", false, ""⟩
      "http://site.test/" docX1 initState ⟨"http", "site.test", "/"⟩
      ⟨"http", "site.test", "/x"⟩ (by decide) (by decide) (by decide),
   by
     have := C10_determinism_amended.2 "http://site.test/" ⟨"http", "site.test", "/"⟩
       (by decide) (by decide)
     exact ⟨by decide, rfl⟩⟩

end SiteCloner

namespace SiteCloner

theorem crawlPage_guard (W : World) (cfg : Config) (fuel : Nat) (u : String) (dep : Nat)
    (s : CState) (h : (decide (dep > effMaxDepth cfg) || s.visited.contains u) = true) :
    crawlPage W cfg (fuel + 1) u dep s = s := by
  simp only [crawlPage]
  rw [if_pos h]

theorem crawlPage_fetchFail (W : World) (cfg : Config) (fuel : Nat) (u : String) (dep : Nat)
    (s : CState) (h : (decide (dep > effMaxDepth cfg) || s.visited.contains u) = false)
    (hf : W.fetchPage u = none) :
    crawlPage W cfg (fuel + 1) u dep s =
      { s with pageFetches := s.pageFetches ++ [(u, dep)],
               errors := s.errors ++ ["crawl " ++ u] } := by
  simp only [crawlPage]
  rw [if_neg (fun hq => Bool.false_ne_true (h ▸ hq)), hf]

theorem crawlPage_success (W : World) (cfg : Config) (fuel : Nat) (u : String) (dep : Nat)
    (s : CState) (doc : Doc)
    (h : (decide (dep > effMaxDepth cfg) || s.visited.contains u) = false)
    (hf : W.fetchPage u = some doc) :
    crawlPage W cfg (fuel + 1) u dep s =
      (let s1 : CState := { s with pageFetches := s.pageFetches ++ [(u, dep)] }
       let s2 : CState := { s1 with visited := insertS u s1.visited }
       let ds := if cfg.downloadAssets then processAssets W cfg doc u s2 else (doc, s2)
       let doc2 := rewriteLinks cfg ds.1 u
       let s3 : CState := { ds.2 with
         written := ds.2.written ++ [(pathJoin [cfg.outputDir, getFilename u], doc2)] }
       (extractInternalLinks cfg doc2 u s3.visited).foldl
         (fun st l => crawlPage W cfg fuel l (dep + 1) st) s3) := by
  simp only [crawlPage]
  rw [if_neg (fun hq => Bool.false_ne_true (h ▸ hq)), hf]

end SiteCloner

namespace SiteCloner

theorem crawl_fold_pres (W : World) (cfg : Config) (fuel dep : Nat) (s : CState)
    (IH : ∀ (u : String) (dp : Nat) (st : CState),
      (∃ t, (crawlPage W cfg fuel u dp st).visited = st.visited ++ t) ∧
      (invDA st → invDA (crawlPage W cfg fuel u dp st)) ∧
      (∀ e ∈ (crawlPage W cfg fuel u dp st).pageFetches,
        e ∈ st.pageFetches ∨ e.2 ≤ effMaxDepth cfg) ∧
      (∀ url, url ∈ st.visited →
        (crawlPage W cfg fuel u dp st).pageFetches.countP (fun e => e.1 == url) =
          st.pageFetches.countP (fun e => e.1 == url)))
    (links : List String) (s0 : CState)
    (hv0 : ∃ t, s0.visited = s.visited ++ t)
    (hi0 : invDA s → invDA s0)
    (hp0 : ∀ e ∈ s0.pageFetches, e ∈ s.pageFetches ∨ e.2 ≤ effMaxDepth cfg)
    (hc0 : ∀ url, url ∈ s.visited →
      s0.pageFetches.countP (fun e => e.1 == url) =
        s.pageFetches.countP (fun e => e.1 == url)) :
    (∃ t, (links.foldl (fun st l => crawlPage W cfg fuel l (dep + 1) st) s0).visited =
      s.visited ++ t) ∧
    (invDA s → invDA (links.foldl (fun st l => crawlPage W cfg fuel l (dep + 1) st) s0)) ∧
    (∀ e ∈ (links.foldl (fun st l => crawlPage W cfg fuel l (dep + 1) st) s0).pageFetches,
      e ∈ s.pageFetches ∨ e.2 ≤ effMaxDepth cfg) ∧
    (∀ url, url ∈ s.visited →
      (links.foldl (fun st l => crawlPage W cfg fuel l (dep + 1) st) s0).pageFetches.countP
          (fun e => e.1 == url) =
        s.pageFetches.countP (fun e => e.1 == url)) := by
  refine foldl_pres
    (fun st => (∃ t, st.visited = s.visited ++ t) ∧ (invDA s → invDA st) ∧
      (∀ e ∈ st.pageFetches, e ∈ s.pageFetches ∨ e.2 ≤ effMaxDepth cfg) ∧
      (∀ url, url ∈ s.visited →
        st.pageFetches.countP (fun e => e.1 == url) =
          s.pageFetches.countP (fun e => e.1 == url)))
    (fun st l => crawlPage W cfg fuel l (dep + 1) st) links s0
    ⟨hv0, hi0, hp0, hc0⟩ ?_
  intro st l hst
  obtain ⟨⟨t1, hst1⟩, hst2, hst3, hst4⟩ := hst
  obtain ⟨⟨t2, hih1⟩, hih2, hih3, hih4⟩ := IH l (dep + 1) st
  refine ⟨⟨t1 ++ t2, by rw [hih1, hst1, List.append_assoc]⟩,
    fun hv => hih2 (hst2 hv), ?_, ?_⟩
  · intro e he
    rcases hih3 e he with he2 | he2
    · exact hst3 e he2
    · exact Or.inr he2
  · intro url hurl
    have hmem : url ∈ st.visited := by
      rw [hst1]
      exact List.mem_append.mpr (Or.inl hurl)
    rw [hih4 url hmem, hst4 url hurl]

theorem crawl_master (W : World) (cfg : Config) :
    ∀ (fuel : Nat) (u : String) (dep : Nat) (s : CState),
      (∃ t, (crawlPage W cfg fuel u dep s).visited = s.visited ++ t) ∧
      (invDA s → invDA (crawlPage W cfg fuel u dep s)) ∧
      (∀ e ∈ (crawlPage W cfg fuel u dep s).pageFetches,
        e ∈ s.pageFetches ∨ e.2 ≤ effMaxDepth cfg) ∧
      (∀ url, url ∈ s.visited →
        (crawlPage W cfg fuel u dep s).pageFetches.countP (fun e => e.1 == url) =
          s.pageFetches.countP (fun e => e.1 == url))
  | 0, u, dep, s =>
      ⟨⟨[], by simp [crawlPage]⟩, fun hv => hv,
       fun e he => Or.inl he, fun url _ => rfl⟩
  | fuel + 1, u, dep, s => by
      by_cases hguard : (decide (dep > effMaxDepth cfg) || s.visited.contains u) = true
      · rw [crawlPage_guard W cfg fuel u dep s hguard]
        exact ⟨⟨[], by simp⟩, fun hv => hv, fun e he => Or.inl he, fun url _ => rfl⟩
      · have hgf : (decide (dep > effMaxDepth cfg) || s.visited.contains u) = false := by
          simpa using hguard
        have hparts := Bool.or_eq_false_iff.mp hgf
        have hndep : dep ≤ effMaxDepth cfg := by
          have := of_decide_eq_false hparts.1
          omega
        have hcf : s.visited.contains u = false := hparts.2
        have humem : u ∉ s.visited := by
          intro hm
          rw [(contains_iff_mem _ _).mpr hm] at hcf
          exact Bool.false_ne_true hcf.symm
        have hne : ∀ url, url ∈ s.visited → (u == url) = false := by
          intro url hurl
          refine beq_eq_false_iff_ne.mpr ?_
          intro heq
          exact humem (heq ▸ hurl)
        have hins : insertS u s.visited = s.visited ++ [u] := by
          unfold insertS
          rw [if_neg (fun hq => Bool.false_ne_true (hcf.symm.trans hq))]
        cases hfp : W.fetchPage u with
        | none =>
          rw [crawlPage_fetchFail W cfg fuel u dep s hgf hfp]
          refine ⟨⟨[], by simp⟩, fun hv => hv, ?_, ?_⟩
          · intro e he
            rcases List.mem_append.mp he with he2 | he2
            · exact Or.inl he2
            · right
              have he3 : e = (u, dep) := by simpa using he2
              rw [he3]
              exact hndep
          · intro url hurl
            simp [List.countP_append, List.countP_cons, hne url hurl]
        | some doc =>
          rw [crawlPage_success W cfg fuel u dep s doc hgf hfp]
          dsimp only
          by_cases hda : cfg.downloadAssets = true
          · rw [if_pos hda]
            obtain ⟨pv, pf, pw, pinv⟩ := processAssets_state W cfg doc u
              { s with pageFetches := s.pageFetches ++ [(u, dep)],
                       visited := insertS u s.visited }
            dsimp only at pv pf pinv
            refine crawl_fold_pres W cfg fuel dep s (crawl_master W cfg fuel) _ _
              ⟨[u], ?_⟩ ?_ ?_ ?_
            · show (processAssets W cfg doc u
                { s with pageFetches := s.pageFetches ++ [(u, dep)],
                         visited := insertS u s.visited }).2.visited = s.visited ++ [u]
              rw [pv, hins]
            · intro hv
              exact pinv hv
            · intro e he
              have he2 : e ∈ (processAssets W cfg doc u
                { s with pageFetches := s.pageFetches ++ [(u, dep)],
                         visited := insertS u s.visited }).2.pageFetches := he
              rw [pf] at he2
              have he2b : e ∈ s.pageFetches ++ [(u, dep)] := he2
              rcases List.mem_append.mp he2b with he3 | he3
              · exact Or.inl he3
              · right
                have he4 : e = (u, dep) := by simpa using he3
                rw [he4]
                exact hndep
            · intro url hurl
              show (processAssets W cfg doc u
                { s with pageFetches := s.pageFetches ++ [(u, dep)],
                         visited := insertS u s.visited }).2.pageFetches.countP
                  (fun e => e.1 == url) = s.pageFetches.countP (fun e => e.1 == url)
              rw [pf]
              show (s.pageFetches ++ [(u, dep)]).countP (fun e => e.1 == url) =
                s.pageFetches.countP (fun e => e.1 == url)
              simp [List.countP_append, List.countP_cons, hne url hurl]
          · rw [if_neg hda]
            refine crawl_fold_pres W cfg fuel dep s (crawl_master W cfg fuel) _ _
              ⟨[u], hins⟩ (fun hv => hv) ?_ ?_
            · intro e he
              have he2 : e ∈ s.pageFetches ++ [(u, dep)] := he
              rcases List.mem_append.mp he2 with he3 | he3
              · exact Or.inl he3
              · right
                have he4 : e = (u, dep) := by simpa using he3
                rw [he4]
                exact hndep
            · intro url hurl
              show (s.pageFetches ++ [(u, dep)]).countP (fun e => e.1 == url) =
                s.pageFetches.countP (fun e => e.1 == url)
              simp [List.countP_append, List.countP_cons, hne url hurl]

end SiteCloner

namespace SiteCloner

theorem crawl_visited_guard (W : World) (cfg : Config) (fuel : Nat) (u : String) (dep : Nat)
    (s : CState) (h : u ∈ s.visited) : crawlPage W cfg fuel u dep s = s := by
  cases fuel with
  | zero => rfl
  | succ f =>
    exact crawlPage_guard W cfg f u dep s (by simp; exact Or.inr h)

theorem crawl_fuel_succ (W : World) (cfg : Config) :
    ∀ (fuel : Nat) (u : String) (dep : Nat) (s : CState),
      effMaxDepth cfg + 1 - dep < fuel →
      crawlPage W cfg fuel u dep s = crawlPage W cfg (fuel + 1) u dep s
  | 0, _, _, _, h => absurd h (Nat.not_lt_zero _)
  | fuel + 1, u, dep, s, h => by
      by_cases hguard : (decide (dep > effMaxDepth cfg) || s.visited.contains u) = true
      · rw [crawlPage_guard W cfg fuel u dep s hguard,
          crawlPage_guard W cfg (fuel + 1) u dep s hguard]
      · have hgf : (decide (dep > effMaxDepth cfg) || s.visited.contains u) = false := by
          simpa using hguard
        have hdep : dep ≤ effMaxDepth cfg := by
          have h2 := of_decide_eq_false (Bool.or_eq_false_iff.mp hgf).1
          omega
        cases hfp : W.fetchPage u with
        | none =>
          rw [crawlPage_fetchFail W cfg fuel u dep s hgf hfp,
            crawlPage_fetchFail W cfg (fuel + 1) u dep s hgf hfp]
        | some doc =>
          rw [crawlPage_success W cfg fuel u dep s doc hgf hfp,
            crawlPage_success W cfg (fuel + 1) u dep s doc hgf hfp]
          dsimp only
          refine foldl_fun_congr _ _ ?_ _ _
          intro st l
          exact crawl_fuel_succ W cfg fuel l (dep + 1) st (by omega)

theorem crawl_fuel_ge (W : World) (cfg : Config) :
    ∀ (k fuel : Nat) (u : String) (dep : Nat) (s : CState),
      effMaxDepth cfg + 1 - dep < fuel →
      crawlPage W cfg fuel u dep s = crawlPage W cfg (fuel + k) u dep s
  | 0, _, _, _, _, _ => rfl
  | k + 1, fuel, u, dep, s, h => by
      rw [crawl_fuel_ge W cfg k fuel u dep s h]
      exact crawl_fuel_succ W cfg (fuel + k) u dep s (by omega)

theorem mem_dedup_aux : ∀ (l acc : List String) (x : String),
    x ∈ l.foldl (fun acc y => if acc.contains y then acc else acc ++ [y]) acc →
    x ∈ acc ∨ x ∈ l
  | [], _, _, h => Or.inl h
  | b :: t, acc, x, h => by
      rw [List.foldl_cons] at h
      rcases mem_dedup_aux t _ x h with h2 | h2
      · by_cases hb : acc.contains b = true
        · rw [if_pos hb] at h2
          exact Or.inl h2
        · rw [if_neg hb] at h2
          rcases List.mem_append.mp h2 with h3 | h3
          · exact Or.inl h3
          · right
            have hxb : x = b := by simpa using h3
            simp [hxb]
      · exact Or.inr (List.mem_cons_of_mem b h2)

theorem extract_not_visited (cfg : Config) (d : Doc) (pageUrl : String)
    (visited : List String) :
    ∀ l ∈ extractInternalLinks cfg d pageUrl visited, l ∉ visited := by
  unfold extractInternalLinks
  dsimp only
  intro l hl
  unfold dedupF at hl
  rcases mem_dedup_aux _ _ _ hl with h | h
  · simp at h
  · refine foldl_pres (fun (acc : List String) => ∀ x ∈ acc, x ∉ visited)
      _ d.elems [] (by intro x hx; simp at hx) ?_ l h
    intro acc e hacc x hx
    split at hx
    · split at hx
      · split at hx
        · split at hx
          · split at hx
            · split at hx
              · exact hacc x hx
              · rename_i u hu hnc
                rcases List.mem_append.mp hx with h2 | h2
                · exact hacc x h2
                · have hxe : x = u.href := by simpa using h2
                  subst hxe
                  intro hmem
                  exact hnc ((contains_iff_mem _ _).mpr hmem)
            · exact hacc x hx
          · exact hacc x hx
        · exact hacc x hx
      · exact hacc x hx
    · exact hacc x hx

theorem invDA_init : invDA initState := by
  intro x
  simp [initState]

end SiteCloner

namespace SiteCloner

/-- Claim C1: the dedup store gives an at-most-once guarantee. A
reference whose absolute URL is already in downloadedAssets is rewritten
from the stored relative path without fetching and without touching the
state; every downloadAsset call, every crawlPage call and the whole
clone preserve the invariant that the downloaded set and the key set of
assetMap agree; and in the two-page scenario sharing one stylesheet the
crawl issues exactly one asset fetch, writes exactly one asset file,
records exactly one assetMap entry, and rewrites both references to the
same relative path. -/
theorem C1_asset_dedup :
    (∀ (W : World) (cfg : Config) (a : AssetRef) (pageUrl : String) (d : Doc) (s : CState)
      (base u : Url) (lp : String),
      parseUrl pageUrl = some base → resolveRef a.url base = some u →
      s.downloadedAssets.contains u.href = true → lookupA s.assetMap u.href = some lp →
      downloadAsset W cfg a pageUrl d s = (updateAssetReference a lp d, s)) ∧
    (∀ (W : World) (cfg : Config) (a : AssetRef) (pageUrl : String) (d : Doc) (s : CState),
      invDA s → invDA (downloadAsset W cfg a pageUrl d s).2) ∧
    (∀ (W : World) (cfg : Config) (fuel : Nat) (u : String) (dep : Nat) (s : CState),
      invDA s → invDA (crawlPage W cfg fuel u dep s)) ∧
    (∀ (W : World) (cfg : Config), invDA (clone W cfg)) ∧
    ((clone worldB cfgT).assetFetches = ["http://site.test/css/site.css"] ∧
     (clone worldB cfgT).assetWrites = ["cloned-site/assets/css/site.css"] ∧
     (clone worldB cfgT).assetMap = [("http://site.test/css/site.css", "assets/css/site.css")] ∧
     (clone worldB cfgT).written.map
       (fun w => (w.1, w.2.elems.map (fun e => getAttr e "href"))) =
       [("cloned-site/index.html", [some "assets/css/site.css", some "/p2.html"]),
        ("cloned-site/p2.html", [some "assets/css/site.css"])]) := by
  refine ⟨downloadAsset_skip, invDA_downloadAsset, ?_, ?_, by decide, by decide, by decide,
    by decide⟩
  · intro W cfg fuel u dep s hv
    exact (crawl_master W cfg fuel u dep s).2.1 hv
  · intro W cfg
    exact (crawl_master W cfg (effMaxDepth cfg + 2) cfg.url 0 initState).2.1 invDA_init

/-- Witness for claim C1: a stylesheet reference whose URL is already
downloaded is rewritten from the stored path with no state change. -/
theorem C1_asset_dedup_witness :
    downloadAsset worldB cfgT ⟨0, "href", "/css/site.css", "css", false, ""⟩
        "http://site.test/p2.html" docP2
        ⟨[], ["http://site.test/css/site.css"],
         [("http://site.test/css/site.css", "assets/css/site.css")], [], [], [], [], []⟩ =
      (updateAssetReference ⟨0, "href", "/css/site.css", "css", false, ""⟩
        "assets/css/site.css" docP2,
       ⟨[], ["http://site.test/css/site.css"],
        [("http://site.test/css/site.css", "assets/css/site.css")], [], [], [], [], []⟩) ∧
    invDA (clone worldB cfgT) :=
  ⟨C1_asset_dedup.1 worldB cfgT ⟨0, "href", "/css/site.css", "css", false, ""⟩
      "http://site.test/p2.html" docP2
      ⟨[], ["http://site.test/css/site.css"],
       [("http://site.test/css/site.css", "assets/css/site.css")], [], [], [], [], []⟩
      ⟨"http", "site.test", "/p2.html"⟩ ⟨"http", "site.test", "/css/site.css"⟩
      "assets/css/site.css" (by decide) (by decide) (by decide) (by decide),
   C1_asset_dedup.2.2.2.1 worldB cfgT⟩

/-- Claim C2: the visited set prevents re-crawling and cycles. A call
on a URL already in the visited set returns the state unchanged; the
visited set only grows, so the guarantee holds for the remainder of the
run, and no URL in the visited set is ever fetched again; the link
extractor excludes visited URLs; and a site whose root links back to
itself fetches the root exactly once. -/
theorem C2_visited_set :
    (∀ (W : World) (cfg : Config) (fuel : Nat) (u : String) (dep : Nat) (s : CState),
      u ∈ s.visited → crawlPage W cfg fuel u dep s = s) ∧
    (∀ (W : World) (cfg : Config) (fuel : Nat) (u : String) (dep : Nat) (s : CState),
      ∃ t, (crawlPage W cfg fuel u dep s).visited = s.visited ++ t) ∧
    (∀ (W : World) (cfg : Config) (fuel : Nat) (u : String) (dep : Nat) (s : CState)
      (url : String), url ∈ s.visited →
      (crawlPage W cfg fuel u dep s).pageFetches.countP (fun e => e.1 == url) =
        s.pageFetches.countP (fun e => e.1 == url)) ∧
    (∀ (cfg : Config) (d : Doc) (pageUrl : String) (visited : List String),
      ∀ l ∈ extractInternalLinks cfg d pageUrl visited, l ∉ visited) ∧
    (clone worldA cfgT).pageFetches.countP (fun e => e.1 == "http://site.test/") = 1 := by
  refine ⟨crawl_visited_guard, ?_, ?_, extract_not_visited, by decide⟩
  · intro W cfg fuel u dep s
    exact (crawl_master W cfg fuel u dep s).1
  · intro W cfg fuel u dep s url hurl
    exact (crawl_master W cfg fuel u dep s).2.2.2 url hurl

/-- Witness for claim C2 at a concrete visited state and document. -/
theorem C2_visited_set_witness :
    crawlPage worldA cfgT 4 "http://site.test/" 0
        ⟨["http://site.test/"], [], [], [], [], [], [], []⟩ =
      ⟨["http://site.test/"], [], [], [], [], [], [], []⟩ ∧
    ("http://site.test/" : String) ∉ ([] : List String) :=
  ⟨C2_visited_set.1 worldA cfgT 4 "http://site.test/" 0
      ⟨["http://site.test/"], [], [], [], [], [], [], []⟩ (by decide),
   C2_visited_set.2.2.2.1 cfgT docRootA "http://site.test/" [] "http://site.test/"
     (by decide)⟩

/-- Counterexample to claim C3: with a configured maxDepth of zero the
constructor default of source line 107 (options.maxDepth or else 2,
zero being falsy in JavaScript) coerces the bound to 2, so the crawler
does recurse into the internal links of the root page: a page one edge
from the root is fetched even though the claim allows no page more than
zero edges away and promises no recursion. -/
theorem C3_depth_zero_counterexample :
    cfg0.maxDepth = 0 ∧
    ("http://site.test/index.html", 1) ∈ (clone worldA cfg0).pageFetches ∧
    (clone worldA cfg0).pageFetches =
      [("http://site.test/", 0), ("http://site.test/index.html", 1)] := by
  refine ⟨rfl, by decide, by decide⟩

/-- Amended claim C3: every page fetch of a clone run happens at a
traversal depth (edge count from the root along the discovery path) of
at most the effective bound of the constructor, which equals the
configured maxDepth whenever that is non-zero, and is 2 when the
configured maxDepth is zero (the falsy default of source line 107); so
the depth bound N holds as claimed for every configuration with
maxDepth = N at least 1, while a configured maxDepth of zero behaves
like maxDepth 2: the crawler recurses into the internal links of the
root page, here fetching the linked page at depth 1 (whose fetch this
world fails, so only index.html is written). -/
theorem C3_depth_bound :
    (∀ (W : World) (cfg : Config), ∀ e ∈ (clone W cfg).pageFetches, e.2 ≤ effMaxDepth cfg) ∧
    (∀ cfg : Config, cfg.maxDepth ≠ 0 → effMaxDepth cfg = cfg.maxDepth) ∧
    effMaxDepth cfg0 = 2 ∧
    (clone worldA cfg0).pageFetches =
      [("http://site.test/", 0), ("http://site.test/index.html", 1)] ∧
    (clone worldA cfg0).written.map Prod.fst = ["cloned-site/index.html"] := by
  refine ⟨?_, ?_, by decide, by decide, by decide⟩
  · intro W cfg e he
    simp only [clone] at he
    rcases (crawl_master W cfg (effMaxDepth cfg + 2) cfg.url 0 initState).2.2.1 e he with h | h
    · simp [initState] at h
    · exact h
  · intro cfg h0
    unfold effMaxDepth
    rw [if_neg h0]

/-- Witness for the amended claim C3. -/
theorem C3_depth_bound_witness :
    (("http://site.test/", 0) : String × Nat).2 ≤ effMaxDepth cfgT ∧
    effMaxDepth cfgT = cfgT.maxDepth :=
  ⟨C3_depth_bound.1 worldA cfgT ("http://site.test/", 0) (by decide),
   C3_depth_bound.2.1 cfgT (by decide)⟩

end SiteCloner

namespace SiteCloner

/-- Claim C6: no single failure is fatal. The root crawl call computes
the same final state for every fuel bound above the depth limit, so the
recursion terminates and the root call returns once traversal is
exhausted; a page whose fetch fails only logs the attempt and an error
and is not marked visited; a failed asset download leaves the document
(and so the owning attribute) unmodified and leaves downloadedAssets
and assetMap unchanged, logging the attempt and an error. -/
theorem C6_failures_not_fatal :
    (∀ (W : World) (cfg : Config) (f : Nat), effMaxDepth cfg + 2 ≤ f →
      crawlPage W cfg f cfg.url 0 initState = clone W cfg) ∧
    (∀ (W : World) (cfg : Config) (fuel : Nat) (u : String) (dep : Nat) (s : CState),
      dep ≤ effMaxDepth cfg → s.visited.contains u = false → W.fetchPage u = none →
      crawlPage W cfg (fuel + 1) u dep s =
        { s with pageFetches := s.pageFetches ++ [(u, dep)],
                 errors := s.errors ++ ["crawl " ++ u] }) ∧
    (∀ (W : World) (cfg : Config) (a : AssetRef) (pageUrl : String) (d : Doc) (s : CState)
      (base u : Url),
      parseUrl pageUrl = some base → resolveRef a.url base = some u →
      s.downloadedAssets.contains u.href = false → W.fetchAsset u.href = none →
      downloadAsset W cfg a pageUrl d s =
        (d, { s with assetFetches := s.assetFetches ++ [u.href],
                     errors := s.errors ++ ["asset " ++ a.url] })) := by
  refine ⟨?_, ?_, downloadAsset_fetchFail⟩
  · intro W cfg f hf
    have h0 : effMaxDepth cfg + 1 - 0 < effMaxDepth cfg + 2 := by omega
    have hfe : f = (effMaxDepth cfg + 2) + (f - (effMaxDepth cfg + 2)) := by omega
    unfold clone
    rw [hfe]
    exact (crawl_fuel_ge W cfg (f - (effMaxDepth cfg + 2)) (effMaxDepth cfg + 2)
      cfg.url 0 initState h0).symm
  · intro W cfg fuel u dep s hdep hcont hfp
    apply crawlPage_fetchFail W cfg fuel u dep s ?_ hfp
    have hdd : decide (dep > effMaxDepth cfg) = false := by
      simp only [decide_eq_false_iff_not]
      omega
    rw [hdd, hcont]
    rfl

/-- Witness for claim C6 at the self-link site, a missing page and a
missing asset. -/
theorem C6_failures_not_fatal_witness :
    crawlPage worldA cfgT 7 "http://site.test/" 0 initState = clone worldA cfgT ∧
    crawlPage worldA cfgT 1 "http://site.test/missing" 0 initState =
      { initState with pageFetches := [("http://site.test/missing", 0)],
                       errors := ["crawl http://site.test/missing"] } ∧
    downloadAsset worldA cfgT ⟨0, "src", "/x", "image", false, ""⟩ "http://site.test/"
        docRootA initState =
      (docRootA, { initState with assetFetches := ["http://site.test/x"],
                                  errors := ["asset /x"] }) :=
  ⟨C6_failures_not_fatal.1 worldA cfgT 7 (by decide),
   C6_failures_not_fatal.2.1 worldA cfgT 0 "http://site.test/missing" 0 initState
     (by decide) (by decide) (by decide),
   C6_failures_not_fatal.2.2 worldA cfgT ⟨0, "src", "/x", "image", false, ""⟩
     "http://site.test/" docRootA initState ⟨"http", "site.test", "/"⟩
     ⟨"http", "site.test", "/x"⟩ (by decide) (by decide) (by decide) (by decide)⟩

/-- Claim C7: isInternalLink is false for empty, hash, mailto and tel
references, false (not an error) when the page URL does not parse or
the reference does not resolve, and otherwise compares the resolved
hostname with the root hostname; the link rewriter maps rewriteElem
over the document and leaves every element whose reference is not
internal unchanged, so an anchor to another host passes through
unchanged. -/
theorem C7_isInternal :
    (∀ (cfg : Config) (p : String), isInternalLink cfg "" p = false) ∧
    (∀ (cfg : Config) (h p : String),
      strStarts h "#" = true ∨ strStarts h "mailto:" = true ∨ strStarts h "tel:" = true →
      isInternalLink cfg h p = false) ∧
    (∀ (cfg : Config) (h p : String), parseUrl p = none → isInternalLink cfg h p = false) ∧
    (∀ (cfg : Config) (h p : String) (b : Url), parseUrl p = some b →
      resolveRef h b = none → isInternalLink cfg h p = false) ∧
    (∀ (cfg : Config) (h p : String) (b u : Url),
      h ≠ "" → strStarts h "#" = false → strStarts h "mailto:" = false →
      strStarts h "tel:" = false → parseUrl p = some b → resolveRef h b = some u →
      isInternalLink cfg h p = (u.host == rootHost cfg)) ∧
    (∀ (cfg : Config) (p : String) (e : Elem),
      (e.tag = "a" → ∀ h, getAttr e "href" = some h → isInternalLink cfg h p = false) →
      rewriteElem cfg p e = e) ∧
    (∀ (cfg : Config) (d : Doc) (p : String),
      (rewriteLinks cfg d p).elems = d.elems.map (rewriteElem cfg p)) ∧
    rewriteLinks cfgT docExt "http://site.test/" = docExt := by
  refine ⟨?_, ?_, ?_, ?_, ?_, ?_, fun cfg d p => rfl, by decide⟩
  · intro cfg p
    simp [isInternalLink]
  · intro cfg h p hor
    rcases hor with h1 | h1 | h1 <;> simp [isInternalLink, h1]
  · intro cfg h p hp
    unfold isInternalLink
    split
    · rfl
    · rw [hp]
  · intro cfg h p b hp hr
    unfold isInternalLink
    split
    · rfl
    · rw [hp]
      dsimp only
      rw [hr]
  · intro cfg h p b u hne h1 h2 h3 hp hr
    unfold isInternalLink
    rw [if_neg (by simp [hne, h1, h2, h3]), hp]
    dsimp only
    rw [hr]
  · intro cfg p e hcond
    unfold rewriteElem
    split
    case isTrue hta =>
      cases hh : getAttr e "href" with
      | none => rfl
      | some h =>
        dsimp only
        rw [hcond hta h hh]
        simp
    case isFalse => rfl

/-- Witness for claim C7 at concrete references. -/
theorem C7_isInternal_witness :
    isInternalLink cfgT "#sec" "http://site.test/" = false ∧
    isInternalLink cfgT "/a" "nope" = false ∧
    isInternalLink cfgT "http://bad host/x" "http://site.test/" = false ∧
    isInternalLink cfgT "https://other.example/x" "http://site.test/" =
      (("other.example" : String) == rootHost cfgT) ∧
    rewriteElem cfgT "http://site.test/" ⟨"a", [("href", "https://other.example/x")]⟩ =
      ⟨"a", [("href", "https://other.example/x")]⟩ :=
  ⟨C7_isInternal.2.1 cfgT "#sec" "http://site.test/" (Or.inl (by decide)),
   C7_isInternal.2.2.1 cfgT "/a" "nope" (by decide),
   C7_isInternal.2.2.2.1 cfgT "http://bad host/x" "http://site.test/"
     ⟨"http", "site.test", "/"⟩ (by decide) (by decide),
   C7_isInternal.2.2.2.2.1 cfgT "https://other.example/x" "http://site.test/"
     ⟨"http", "site.test", "/"⟩ ⟨"https", "other.example", "/x"⟩
     (by decide) (by decide) (by decide) (by decide) (by decide) (by decide),
   C7_isInternal.2.2.2.2.2.1 cfgT "http://site.test/"
     ⟨"a", [("href", "https://other.example/x")]⟩
     (fun _ h hh => by
       have hx : h = "https://other.example/x" := by
         simpa [getAttr] using hh.symm
       rw [hx]
       decide)⟩

end SiteCloner
